import Mathlib

/-!
# Detection decoding, suppression, calibration and the detect stage

A shallow embedding of `VProcessor.cpp` and `CourtDetect.cpp`.

* `float` values are the rationals they denote (every finite binary32 value is
  a rational); an operation that rounds in the source rounds here through
  `f32round` (round to nearest, ties to even, 24-bit significand).  NaN,
  infinities and overflow are outside the model.
* `int` values are integers; a conversion or a difference whose result does
  not fit `int` is undefined behaviour in the source, and the model gives the
  mathematical value there.
* An access outside a `std::vector`, or an OpenCV assertion, is an explicit
  outcome of the function that performs it.
* OpenCV itself is not part of the repository: `minMaxLoc` is the scan
  `maxLoc`, `NMSBoxes` follows section 4.3 of the specification, and
  `findHomography`, `perspectiveTransform` are parameters.
-/

/-! ## binary32 arithmetic -/

/-- Number of binary digits of `n`, computed with `fuel` halvings. -/
def bitLength : Nat → Nat → Nat
  | 0, _ => 0
  | fuel + 1, n => if n = 0 then 0 else bitLength fuel (n / 2) + 1

/-- Position of the leading binary digit of `n` (0 for `n ≤ 1`). -/
def ilog2 (n : Nat) : Int := (bitLength n n : Int) - 1

/-- The exponent `e` with `2^e ≤ |q| < 2^(e+1)`, for `q ≠ 0`. -/
def binExponent (q : ℚ) : Int :=
  let d : Int := ilog2 q.num.natAbs - ilog2 q.den
  if (2 : ℚ) ^ d ≤ |q| then d else d - 1

/-- Nearest integer to `q`, a tie going to the even neighbour. -/
def roundNearestEven (q : ℚ) : Int :=
  let f := q.floor
  let r := q - f
  if r < 1 / 2 then f
  else if 1 / 2 < r then f + 1
  else if f % 2 = 0 then f else f + 1

/-- Rounding of a real value to binary32: 24 significant bits, the exponent of
the leading bit not below -126 (below that the spacing stays `2^-149`). -/
def f32round (q : ℚ) : ℚ :=
  if q = 0 then 0
  else
    let e := max (binExponent q) (-126)
    let ulp : ℚ := (2 : ℚ) ^ (e - 23)
    (roundNearestEven (q / ulp) : ℚ) * ulp

/-- The conversion `(float)n` of an `int`. -/
def f32OfInt (n : Int) : ℚ := f32round n

/-- The product `x * n` of a `float` and an `int`, as C++ evaluates it: the
`int` is converted to `float` and the product is rounded to `float`. -/
def f32mulInt (x : ℚ) (n : Int) : ℚ := f32round (x * f32OfInt n)

/-- The conversion `(int)x` of a `float`: truncation toward zero. -/
def truncToInt (x : ℚ) : Int := Int.tdiv x.num x.den

/-! ## Data model of `VProcessor` -/

/-- The `cv::Rect` of integer pixels. -/
structure Rect where
  x : Int
  y : Int
  width : Int
  height : Int
  deriving DecidableEq, Repr

/-- The dimensions `frame.cols`, `frame.rows` of the frame being annotated. -/
structure Frame where
  cols : Int
  rows : Int
  deriving DecidableEq, Repr

/-- A `CV_32F` matrix, given by its rows. -/
abbrev Mat := List (List ℚ)

/-- The three parallel vectors `classIds`, `confidences`, `boxes` that
`postprocess` fills. -/
structure Detections where
  classIds : List Int
  confidences : List ℚ
  boxes : List Rect
  deriving DecidableEq, Repr

namespace Detections

/-- The three vectors before the first `push_back`. -/
def empty : Detections := ⟨[], [], []⟩

/-- The three `push_back` calls that record one candidate. -/
def push (d : Detections) (classId : Int) (confidence : ℚ) (box : Rect) : Detections :=
  ⟨d.classIds ++ [classId], d.confidences ++ [confidence], d.boxes ++ [box]⟩

end Detections

namespace VProcessor

/-- The constant `m_confThreshold = 0.5f`; one half is a binary32 value. -/
def m_confThreshold : ℚ := 1 / 2

/-- The constant `m_nmsThreshold = 0.4f`: the binary32 value nearest to 0.4. -/
def m_nmsThreshold : ℚ := f32round (2 / 5)

/-- The part of `cv::minMaxLoc` that `postprocess` uses, on a non-empty row of
scores: the maximal value and the first column that holds it.  `scan` walks the
remaining columns with the best value and column so far. -/
def maxLocScan : ℚ → Nat → Nat → List ℚ → ℚ × Nat
  | best, bestIdx, _, [] => (best, bestIdx)
  | best, bestIdx, i, v :: vs =>
    if best < v then maxLocScan v i (i + 1) vs else maxLocScan best bestIdx (i + 1) vs

/-- Maximal score and its column among `s :: ss`. -/
def maxLoc (s : ℚ) (ss : List ℚ) : ℚ × Nat := maxLocScan s 0 1 ss

/-- One iteration of the row loop of the `Region` branch (lines 121-141).  The
row is `[cx, cy, w, h, _, s0, s1, ...]`; with fewer than six columns there is
no score range and the result is `none`.  The `double confidence` holds a
`float` score, so the comparison with `0.5f` and the cast back to `float` are
exact. -/
def regionRow (frame : Frame) (acc : Detections) : List ℚ → Option Detections
  | d0 :: d1 :: d2 :: d3 :: _ :: s :: ss =>
    let confidence := (maxLoc s ss).1
    let classIdPoint := (maxLoc s ss).2
    if m_confThreshold < confidence then
      let centerX := truncToInt (f32mulInt d0 frame.cols)
      let centerY := truncToInt (f32mulInt d1 frame.rows)
      let width := truncToInt (f32mulInt d2 frame.cols)
      let height := truncToInt (f32mulInt d3 frame.rows)
      let left := centerX - Int.tdiv width 2
      let top := centerY - Int.tdiv height 2
      some (acc.push (classIdPoint : Int) confidence ⟨left, top, width, height⟩)
    else some acc
  | _ => none

/-- The loop over the rows of one output tensor. -/
def regionRows (frame : Frame) : Detections → Mat → Option Detections
  | acc, [] => some acc
  | acc, row :: rest =>
    match regionRow frame acc row with
    | none => none
    | some acc1 => regionRows frame acc1 rest

/-- The loop over `outs` of the `Region` branch (lines 115-142). -/
def regionOuts (frame : Frame) : Detections → List Mat → Option Detections
  | acc, [] => some acc
  | acc, out :: rest =>
    match regionRows frame acc out with
    | none => none
    | some acc1 => regionOuts frame acc1 rest

/-- One iteration of the row loop of the `DetectionOutput` branch (lines
151-168).  The row is `[label, classIndex, confidence, l, t, r, b]`; a column
that is read and does not exist gives `none`. -/
def detectionRow (frame : Frame) (acc : Detections) : List ℚ → Option Detections
  | _ :: c1 :: confidence :: rest =>
    if m_confThreshold < confidence then
      match rest with
      | c3 :: c4 :: c5 :: c6 :: _ =>
        let idx := truncToInt c1
        let xLeftBottom := truncToInt (f32mulInt c3 frame.cols)
        let yLeftBottom := truncToInt (f32mulInt c4 frame.rows)
        let xRightTop := truncToInt (f32mulInt c5 frame.cols)
        let yRightTop := truncToInt (f32mulInt c6 frame.rows)
        some (acc.push idx confidence
          ⟨xLeftBottom, yLeftBottom, xRightTop - xLeftBottom, yRightTop - yLeftBottom⟩)
      | _ => none
    else some acc
  | _ => none

/-- The loop over the rows of the detection table. -/
def detectionRows (frame : Frame) : Detections → Mat → Option Detections
  | acc, [] => some acc
  | acc, row :: rest =>
    match detectionRow frame acc row with
    | none => none
    | some acc1 => detectionRows frame acc1 rest

/-- The decoding part of `postprocess` (lines 109-170): `layerType` is
`lastLayer->type`.  The `DetectionOutput` branch reads `outs.front()` only; any
other layer type leaves the three vectors empty. -/
def decode (layerType : String) (frame : Frame) (outs : List Mat) : Option Detections :=
  if layerType = "Region" then regionOuts frame Detections.empty outs
  else if layerType = "DetectionOutput" then
    match outs with
    | [] => none
    | detection :: _ => detectionRows frame Detections.empty detection
  else some Detections.empty

/-- The confidence of a Region row: the value that `minMaxLoc` reports for the
scores in columns 5 onward (0 when the row has no such column). -/
def regionConfidence : List ℚ → ℚ
  | _ :: _ :: _ :: _ :: _ :: s :: ss => (maxLoc s ss).1
  | _ => 0

/-- The confidence of a DetectionOutput row: column 2. -/
def detectionConfidence : List ℚ → ℚ
  | _ :: _ :: confidence :: _ => confidence
  | _ => 0

/-- The value `m` is the greatest entry of `l` and `i` is the first position
that holds it. -/
def IsFirstMax (l : List ℚ) (m : ℚ) (i : Nat) : Prop :=
  l[i]? = some m ∧ (∀ v ∈ l, v ≤ m) ∧ ∀ j < i, ∀ v, l[j]? = some v → v < m

end VProcessor

/-! ## Suppression and drawing -/

namespace Rect

/-- The area `width * height` of a rectangle. -/
def area (r : Rect) : Int := r.width * r.height

end Rect

/-- The area of the intersection of two rectangles (0 when they are disjoint). -/
def interArea (a b : Rect) : Int :=
  max 0 (min (a.x + a.width) (b.x + b.width) - max a.x b.x)
    * max 0 (min (a.y + a.height) (b.y + b.height) - max a.y b.y)

/-- The area of the union of two rectangles. -/
def unionArea (a b : Rect) : Int := a.area + b.area - interArea a b

/-- Modelled from the spec: the overlap measure of `cv::dnn::NMSBoxes`, which is
OpenCV code and not part of the repository.  The glossary defines IoU as the
overlap ratio between two boxes' areas: the area of the intersection over the
area of the union.  Two boxes whose union is empty have ratio 0. -/
def iou (a b : Rect) : ℚ := (interArea a b : ℚ) / (unionArea a b : ℚ)

/-- Modelled from the spec: the greedy loop of section 4.3 over the candidate
indices, sorted by descending confidence: select the first remaining index,
retain it, and remove every remaining index whose box has IoU above the
threshold with the retained box.  Each round consumes an index, so a `fuel` of
the number of candidates is enough. -/
def suppress (box : Nat → Rect) (nmsThreshold : ℚ) : Nat → List Nat → List Nat
  | 0, _ => []
  | _ + 1, [] => []
  | fuel + 1, i :: rest =>
    i :: suppress box nmsThreshold fuel
      (rest.filter (fun j => decide (iou (box i) (box j) ≤ nmsThreshold)))

/-- Modelled from the spec: `cv::dnn::NMSBoxes(boxes, scores, scoreThreshold,
nmsThreshold, indices)`, OpenCV code that is not part of the repository, as
section 4.3 describes it.  The candidates are the indices present in both
vectors whose confidence exceeds the confidence threshold; they are sorted by
descending confidence, the earlier index first among equal confidences, and
passed through the greedy loop.  The result is the vector `indices`. -/
def NMSBoxes (boxes : List Rect) (scores : List ℚ) (scoreThreshold nmsThreshold : ℚ) :
    List Nat :=
  let candidates := (List.range (min boxes.length scores.length)).filter
    (fun i => decide (scoreThreshold < scores.getD i 0))
  let sorted := candidates.insertionSort (fun i j => scores.getD j 0 ≤ scores.getD i 0)
  suppress (fun i => boxes.getD i ⟨0, 0, 0, 0⟩) nmsThreshold sorted.length sorted

/-- The `cv::Scalar` colour of a class. -/
structure Scalar where
  b : Int
  g : Int
  r : Int
  deriving DecidableEq, Repr

/-- The arguments of one call `drawPred(classId, conf, left, top, right, bottom, frame)`. -/
structure DrawCall where
  classId : Int
  conf : ℚ
  left : Int
  top : Int
  right : Int
  bottom : Int
  deriving DecidableEq, Repr

/-- The members `_classes` and `_colors` of `VProcessor`. -/
structure VProcessor where
  _classes : List String
  _colors : List Scalar
  deriving DecidableEq, Repr

/-- What one call of `drawPred` does: it draws the box and the label and
returns, or `CV_Assert` throws, or a vector is indexed outside its bounds
(undefined behaviour, no error is raised). -/
inductive DrawResult where
  | drawn (color : Scalar) (className : Option String) (call : DrawCall)
  | assertionFailed
  | outOfRange
  deriving DecidableEq, Repr

/-- What `postprocess` does after decoding: every call of `drawPred` returned,
or the first call that did not return stopped it. -/
inductive PostResult where
  | done (drawn : List DrawResult)
  | assertionFailed
  | outOfRange
  deriving DecidableEq, Repr

/-- The access `v[i]` of a `std::vector` with an `int` index: `none` outside
`0 .. size-1`. -/
def vecAt {α : Type} (v : List α) (i : Int) : Option α :=
  if i < 0 then none else v[i.toNat]?

namespace VProcessor

/-- The constructor's loop over the lines of the class file (lines 36-42): each
line adds one class name and one colour; `rng k` is the colour drawn for the
`k`-th line.  A file that cannot be opened yields no line. -/
def loadClasses (rng : Nat → Scalar) : VProcessor → List String → VProcessor
  | self, [] => self
  | self, line :: rest =>
    loadClasses rng ⟨self._classes ++ [line], self._colors ++ [rng self._colors.length]⟩ rest

/-- The object after construction from the lines of the class file. -/
def create (rng : Nat → Scalar) (lines : List String) : VProcessor :=
  loadClasses rng ⟨[], []⟩ lines

/-- The method `drawPred` (lines 185-203): `_colors[classId]` is read for the
rectangle (line 188); when `_classes` is not empty, `CV_Assert` tests
`classId < _classes.size()` and `_classes[classId]` is read for the label
(lines 192-196); `_colors[classId]` is read again for the text (line 202). -/
def drawPred (self : VProcessor) (call : DrawCall) : DrawResult :=
  match vecAt self._colors call.classId with
  | none => .outOfRange
  | some color =>
    if !self._classes.isEmpty then
      if call.classId < (self._classes.length : Int) then
        match vecAt self._classes call.classId with
        | none => .outOfRange
        | some name => .drawn color (some name) call
      else .assertionFailed
    else .drawn color none call

/-- The loop of lines 176-182 up to the calls it makes: for each retained index
the arguments of `drawPred` are read from the three vectors at that index;
`none` when an index is outside a vector. -/
def drawCalls (d : Detections) : List Nat → Option (List DrawCall)
  | [] => some []
  | idx :: rest =>
    match d.boxes[idx]?, d.classIds[idx]?, d.confidences[idx]?, drawCalls d rest with
    | some box, some classId, some conf, some calls =>
      some (⟨classId, conf, box.x, box.y, box.x + box.width, box.y + box.height⟩ :: calls)
    | _, _, _, _ => none

/-- The calls of `drawPred` in order, stopping at the first that does not return. -/
def drawAll (self : VProcessor) : List DrawCall → List DrawResult → PostResult
  | [], done => .done done
  | call :: rest, done =>
    match drawPred self call with
    | .drawn color name c => drawAll self rest (done ++ [.drawn color name c])
    | .assertionFailed => .assertionFailed
    | .outOfRange => .outOfRange

/-- The method `postprocess` (lines 107-183): decode, suppress, draw.  A tensor
without a column that is read counts as an access out of range. -/
def postprocess (self : VProcessor) (layerType : String) (frame : Frame) (outs : List Mat) :
    PostResult :=
  match decode layerType frame outs with
  | none => .outOfRange
  | some d =>
    match drawCalls d (NMSBoxes d.boxes d.confidences m_confThreshold m_nmsThreshold) with
    | none => .outOfRange
    | some calls => drawAll self calls []

end VProcessor

namespace Detections

end Detections

/-! ## Data model of `CourtDetect` -/

/-- The `cv::Point2f`: two `float` coordinates. -/
structure Point2f where
  x : ℚ
  y : ℚ
  deriving DecidableEq, Repr

/-- The members of `CourtDetect` that calibration and projection use. -/
structure CourtDetect where
  framePoints : List Point2f
  courtPoints : List Point2f
  calibrated : Bool
  deriving DecidableEq, Repr

/-- The arguments `event, x, y, flags` that HighGUI passes to a mouse callback. -/
structure MouseEvent where
  event : Int
  x : Int
  y : Int
  flags : Int
  deriving DecidableEq, Repr

/-- The two windows of the calibration session. -/
inductive Window where
  | court
  | frame
  deriving DecidableEq, Repr

/-- A mouse event together with the window it occurs in. -/
structure UiEvent where
  window : Window
  mouse : MouseEvent
  deriving DecidableEq, Repr

/-- The object under calibration and the HighGUI windows that still exist. -/
structure Session where
  self : CourtDetect
  courtOpen : Bool
  frameOpen : Bool
  deriving DecidableEq, Repr

/-- How `calibratePoints` ends: it returns, or it prints a message and calls
`std::exit`. -/
inductive CalibrationResult where
  | returned (self : CourtDetect)
  | exited (status : Int) (message : String)
  deriving DecidableEq, Repr

/-- A call that `projectPosition` makes into OpenCV. -/
inductive CvCall where
  | findHomography (src dst : List Point2f)
  | perspectiveTransform (position : Point2f)
  | circle (center : Point2f)
  | imshow
  | waitKey
  deriving DecidableEq, Repr

/-- The OpenCV functions whose result `projectPosition` uses, for a type `H`
of homography matrices.  `none` stands for a call that throws. -/
structure Cv (H : Type) where
  findHomography : List Point2f → List Point2f → Option H
  perspectiveTransform : H → Point2f → Option Point2f

/-- What `projectPosition` did: the OpenCV calls in order, and the court point
it drew, or `none` when a call threw. -/
structure Projection where
  calls : List CvCall
  courtPoint : Option Point2f
  deriving DecidableEq, Repr

namespace CourtDetect

/-- The constant `minImagePoints`. -/
def minImagePoints : Nat := 4

/-- The constant `maxImagePoints`. -/
def maxImagePoints : Nat := 15

/-- The OpenCV constant `cv::EVENT_FLAG_LBUTTON`, which the callbacks compare
the event code with. -/
def EVENT_FLAG_LBUTTON : Int := 1

/-- The OpenCV event code `cv::EVENT_LBUTTONDOWN` of a left-button press. -/
def EVENT_LBUTTONDOWN : Int := 1

/-- The point `cv::Point2f((float)x, (float)y)` of a mouse event. -/
def clickPoint (e : MouseEvent) : Point2f := ⟨f32OfInt e.x, f32OfInt e.y⟩

/-- The constructor `CourtDetect(winName)`: no points, not calibrated. -/
def create : CourtDetect := ⟨[], [], false⟩

/-- The accessor `isCalibrated`. -/
def isCalibrated (self : CourtDetect) : Bool := self.calibrated

/-- The callback `onMouseClickFrame` (lines 141-159) on the object `data->p`.
The second component tells whether the callback destroyed the frame window. -/
def onMouseClickFrame (self : CourtDetect) (e : MouseEvent) : CourtDetect × Bool :=
  if self.framePoints.length < maxImagePoints ∧ e.event = EVENT_FLAG_LBUTTON then
    ({ self with framePoints := self.framePoints ++ [clickPoint e] }, false)
  else if self.framePoints.length = maxImagePoints then (self, true)
  else (self, false)

/-- The callback `onMouseClickCourt` (lines 161-179) on the object `data->p`.
The second component tells whether the callback destroyed the court window. -/
def onMouseClickCourt (self : CourtDetect) (e : MouseEvent) : CourtDetect × Bool :=
  if self.courtPoints.length < maxImagePoints ∧ e.event = EVENT_FLAG_LBUTTON then
    ({ self with courtPoints := self.courtPoints ++ [clickPoint e] }, false)
  else if self.courtPoints.length = maxImagePoints then (self, true)
  else (self, false)

/-- The points of the left-button presses among `events`, in order. -/
def pressedPoints (events : List MouseEvent) : List Point2f :=
  (events.filter (fun e => decide (e.event = EVENT_LBUTTONDOWN))).map clickPoint

/-- The events of a list delivered in order to `onMouseClickFrame`. -/
def frameClicks (self : CourtDetect) (events : List MouseEvent) : CourtDetect :=
  events.foldl (fun s e => (onMouseClickFrame s e).1) self

/-- The events of a list delivered in order to `onMouseClickCourt`. -/
def courtClicks (self : CourtDetect) (events : List MouseEvent) : CourtDetect :=
  events.foldl (fun s e => (onMouseClickCourt s e).1) self

/-- HighGUI during `cv::waitKey()`: an event of a window that still exists is
passed to the callback registered for it; a destroyed window delivers nothing. -/
def dispatch (s : Session) (e : UiEvent) : Session :=
  match e.window with
  | .court =>
    if s.courtOpen then
      ⟨(onMouseClickCourt s.self e.mouse).1, !(onMouseClickCourt s.self e.mouse).2, s.frameOpen⟩
    else s
  | .frame =>
    if s.frameOpen then
      ⟨(onMouseClickFrame s.self e.mouse).1, s.courtOpen, !(onMouseClickFrame s.self e.mouse).2⟩
    else s

/-- The object when `cv::waitKey()` returns (lines 83-110): both windows were
shown, both callbacks registered, and `events` occurred before the key press. -/
def collect (self : CourtDetect) (events : List UiEvent) : CourtDetect :=
  (events.foldl dispatch ⟨self, true, true⟩).self

/-- The end of `calibratePoints` (lines 114-125) on the collected points. -/
def validate (self : CourtDetect) : CalibrationResult :=
  if self.framePoints.length < minImagePoints ∨ self.courtPoints.length < minImagePoints then
    .exited (-1) "ERROR must select at least 4 points for each.\n"
  else if self.framePoints.length ≠ self.courtPoints.length then
    .exited (-1) "ERROR frame and court selected points must match.\n"
  else .returned { self with calibrated := true }

/-- The method `calibratePoints` (lines 81-126), for the events that occur
while it waits for a key. -/
def calibratePoints (self : CourtDetect) (events : List UiEvent) : CalibrationResult :=
  validate (collect self events)

/-- The method `projectPosition` (lines 64-79). -/
def projectPosition {H : Type} (cv : Cv H) (self : CourtDetect) (position : Point2f) :
    Projection :=
  match cv.findHomography self.framePoints self.courtPoints with
  | none => ⟨[.findHomography self.framePoints self.courtPoints], none⟩
  | some homography =>
    match cv.perspectiveTransform homography position with
    | none =>
      ⟨[.findHomography self.framePoints self.courtPoints, .perspectiveTransform position],
        none⟩
    | some courtPoint =>
      ⟨[.findHomography self.framePoints self.courtPoints, .perspectiveTransform position,
          .circle courtPoint, .imshow, .waitKey], some courtPoint⟩

end CourtDetect

/-! ## The detect stage -/

/-- The element of a `MatQueue`.  `MatQueue.h` is not among the sources; these
are the two members that `VProcessor::operator()` uses: the image and the
width, which is 0 in the end-of-stream frame. -/
structure MyMat (M : Type) where
  mat : M
  width : Int
  deriving DecidableEq, Repr

/-- How the loop of the detect stage ends: it forwarded the end-of-stream frame
and left the loop; it saw the flag `quit` set; `pop` waits for a frame that
never arrives; or the work on a frame did not return, because an exception
left `operator()`, which has no handler, or a vector was indexed outside its
bounds.  After the last of these the stage pushes nothing more. -/
inductive StageEnd where
  | endOfStream
  | cancelled
  | blocked
  | crashed
  deriving DecidableEq, Repr

/-- A run of the detect stage: the frames pushed to `_outFrames` in order, the
frames left in `_inFrames`, and how the loop ended. -/
structure StageRun (M : Type) where
  pushed : List (MyMat M)
  remaining : List (MyMat M)
  ending : StageEnd
  deriving DecidableEq, Repr

/-- The OpenCV calls of lines 73-94 around `postprocess`, for images of type
`M`: `forward` is the inference of lines 74-83 and yields the type of the last
layer and the output tensors, or `none` when it throws; `frame` gives the
dimensions of the image; `render` is the image after the drawing calls and the
conversion of line 94. -/
structure Inference (M : Type) where
  forward : M → Option (String × List Mat)
  frame : M → Frame
  render : M → List DrawResult → M

namespace VProcessor

/-- The work of one iteration on an ordinary frame (lines 73-94): inference,
`postprocess`, conversion.  `none` when it does not return: the inference
throws, or `postprocess` ends in an assertion or an access out of range. -/
def processFrame {M : Type} (self : VProcessor) (net : Inference M) (mat : M) : Option M :=
  match net.forward mat with
  | none => none
  | some (layerType, outs) =>
    match postprocess self layerType (net.frame mat) outs with
    | .done drawn => some (net.render mat drawn)
    | .assertionFailed => none
    | .outOfRange => none

/-- The method `operator()` (lines 55-100).  The list is the content of
`_inFrames` in the order in which `pop` returns it; the number argument counts
the iterations, and `quit k` is the value of the flag `quit` read at the end of
iteration `k`.  There is no `try` in the method: when the work on a frame does
not return, neither that frame nor anything after it is pushed. -/
def operatorCall {M : Type} (self : VProcessor) (net : Inference M) (quit : Nat → Bool) :
    Nat → List (MyMat M) → StageRun M
  | _, [] => ⟨[], [], .blocked⟩
  | k, myFrame :: rest =>
    if myFrame.width = 0 then ⟨[myFrame], rest, .endOfStream⟩
    else
      match processFrame self net myFrame.mat with
      | none => ⟨[], rest, .crashed⟩
      | some frame =>
        if quit k then ⟨[{ myFrame with mat := frame }], rest, .cancelled⟩
        else
          ⟨{ myFrame with mat := frame } :: (operatorCall self net quit (k + 1) rest).pushed,
            (operatorCall self net quit (k + 1) rest).remaining,
            (operatorCall self net quit (k + 1) rest).ending⟩

end VProcessor

/-! ## Sample inputs -/

namespace Sample

/-- The binary32 value of the literal `0.2f`. -/
def f02 : ℚ := 13421773 / 67108864

/-- The binary32 value of the literal `0.9f`. -/
def f09 : ℚ := 7549747 / 8388608

/-- The binary32 value of the literal `0.1f`. -/
def f01 : ℚ := 13421773 / 134217728

/-- A 300 x 300 frame. -/
def frame300 : Frame := ⟨300, 300⟩

/-- A Region row: centre (0.5, 0.5), size (0.2, 0.2), class scores 0.1 and 0.9. -/
def regionRowHigh : List ℚ := [1 / 2, 1 / 2, f02, f02, 1, f01, f09]

/-- A Region row whose greatest class score, 0.25, is below the threshold. -/
def regionRowLow : List ℚ := [1 / 2, 1 / 2, f02, f02, 1, 1 / 4, 1 / 8]

/-- A DetectionOutput row of class 3 with confidence 0.9 and corners
(0.25, 0.25) and (0.75, 0.5). -/
def tableRowHigh : List ℚ := [0, 3, f09, 1 / 4, 1 / 4, 3 / 4, 1 / 2]

/-- A DetectionOutput row with confidence 0.25. -/
def tableRowLow : List ℚ := [0, 2, 1 / 4, 0, 0, 1, 1]

/-- The colour drawn for the `k`-th class. -/
def palette (k : Nat) : Scalar := ⟨k, k, k⟩

/-- A left-button press at `(x, y)` in window `w`. -/
def press (w : Window) (x y : Int) : UiEvent := ⟨w, ⟨1, x, y, 1⟩⟩

/-- The corners of a 100 x 50 rectangle, pressed in the window `w`. -/
def corners (w : Window) : List UiEvent :=
  [press w 0 0, press w 100 0, press w 100 50, press w 0 50]

/-- Four court points and four frame points. -/
def clicks44 : List UiEvent := corners .court ++ corners .frame

/-- Three court points and five frame points. -/
def clicks35 : List UiEvent :=
  [press .court 0 0, press .court 100 0, press .court 100 50] ++ corners .frame
    ++ [press .frame 50 25]

/-- Six court points and five frame points. -/
def clicks65 : List UiEvent :=
  corners .court ++ [press .court 50 25, press .court 25 25] ++ corners .frame
    ++ [press .frame 50 25]

/-- The corner points of `corners`. -/
def cornerPoints : List Point2f := [⟨0, 0⟩, ⟨100, 0⟩, ⟨100, 50⟩, ⟨0, 50⟩]

/-- The object that `calibratePoints` returns for `clicks44`. -/
def calibrated44 : CourtDetect := ⟨cornerPoints, cornerPoints, true⟩

/-- The object with the points of `clicks44` before calibration completed. -/
def uncalibrated44 : CourtDetect := ⟨cornerPoints, cornerPoints, false⟩

/-- A stand-in for OpenCV on the sample inputs: for four or more source points
that are mapped to themselves the estimated homography is the identity, which
maps every point to itself; for any other input, in particular for fewer than
four points, no homography is returned. -/
def identityCv : Cv Unit where
  findHomography := fun src dst =>
    if 4 ≤ src.length ∧ src = dst then some () else none
  perspectiveTransform := fun _ p => some p

/-- The left-button press number `k`, at `(k, 2 k)`. -/
def pressAt (k : Nat) : MouseEvent := ⟨1, k, 2 * k, 1⟩

/-- A mouse move, sixteen left-button presses and a right-button press. -/
def sixteenPresses : List MouseEvent :=
  ⟨0, 5, 5, 0⟩ :: (List.range 16).map pressAt ++ [⟨2, 9, 9, 2⟩]

/-- An inference that reports, for every image, a `DetectionOutput` layer with
the single detection `tableRowHigh` of class 3 on a 300 x 300 frame; the
rendered image is the image number plus 100 for each drawn detection. -/
def network : Inference Nat where
  forward := fun _ => some ("DetectionOutput", [[tableRowHigh]])
  frame := fun _ => frame300
  render := fun m drawn => m + 100 * drawn.length

/-- The detector with four class names loaded. -/
def fourClasses : VProcessor := VProcessor.create palette ["ball", "player", "referee", "hoop"]

/-- The detector whose class file could not be opened. -/
def noClasses : VProcessor := VProcessor.create palette []

/-- The detector whose class file holds one line only. -/
def oneClass : VProcessor := VProcessor.create palette ["ball"]

end Sample

/-! ## Exactness of binary32 on small integers -/

theorem bitLength_le (fuel : Nat) : ∀ (n k : Nat), n < 2 ^ k → bitLength fuel n ≤ k := by
  induction fuel with
  | zero => intro n k _; simp [bitLength]
  | succ f ih =>
    intro n k h
    unfold bitLength
    split
    · omega
    · rename_i hn
      cases k with
      | zero => simp at h; omega
      | succ k =>
        have h2 : n / 2 < 2 ^ k := by
          rw [Nat.pow_succ] at h
          omega
        have := ih (n / 2) k h2
        omega

theorem roundNearestEven_intCast (z : Int) : roundNearestEven (z : ℚ) = z := by
  have hf : (z : ℚ).floor = z := by
    rw [Rat.floor_def']; simp
  unfold roundNearestEven
  simp only [hf, sub_self]
  norm_num

theorem f32round_of_integral (q : ℚ) (z : Int)
    (hz : q / (2 : ℚ) ^ (max (binExponent q) (-126) - 23) = z) : f32round q = q := by
  unfold f32round
  split
  · rename_i h0; exact h0.symm
  · simp only [hz, roundNearestEven_intCast]
    rw [← hz]
    have hne : (2 : ℚ) ^ (max (binExponent q) (-126) - 23) ≠ 0 := zpow_ne_zero _ (by norm_num)
    field_simp

theorem binExponent_intCast_le (n : Int) (hlt : n.natAbs < 2 ^ 24) :
    binExponent (n : ℚ) ≤ 23 := by
  have h1 : bitLength n.natAbs n.natAbs ≤ 24 := bitLength_le _ _ _ hlt
  have h2 : bitLength 1 1 = 1 := by decide
  unfold binExponent
  simp only [Rat.intCast_num, Rat.intCast_den, ilog2, h2]
  split <;> omega

/-- The conversion `(float)n` is exact for an `int` of magnitude below `2^24`. -/
theorem f32OfInt_exact (n : Int) (hlt : n.natAbs < 2 ^ 24) : f32OfInt n = n := by
  unfold f32OfInt
  by_cases hn : n = 0
  · subst hn; simp [f32round]
  · have he := binExponent_intCast_le n hlt
    have hmax : max (binExponent (n : ℚ)) (-126) ≤ 23 := max_le he (by norm_num)
    obtain ⟨j, hj⟩ : ∃ j : Nat, max (binExponent (n : ℚ)) (-126) - 23 = -(j : Int) :=
      ⟨(23 - max (binExponent (n : ℚ)) (-126)).toNat, by omega⟩
    apply f32round_of_integral (n : ℚ) (n * 2 ^ j)
    rw [hj, zpow_neg, zpow_natCast]
    push_cast
    field_simp

/-- The product of a `float` with an `int` of magnitude below `2^24` is the real
product rounded once to binary32. -/
theorem f32mulInt_eq (x : ℚ) (n : Int) (hlt : n.natAbs < 2 ^ 24) :
    f32mulInt x n = f32round (x * n) := by
  unfold f32mulInt
  rw [f32OfInt_exact n hlt]

/-- The sample values are the binary32 values of the literals they stand for. -/
theorem sample_literals :
    Sample.f01 = f32round (1 / 10) ∧ Sample.f02 = f32round (1 / 5) ∧
    Sample.f09 = f32round (9 / 10) ∧ f32round Sample.f09 = Sample.f09 := by
  decide!

/-- The product is rounded to binary32 before it is truncated: `0.7f * 10` is
7 as a `float`, although the exact product of the two values is below 7. -/
theorem f32mulInt_rounds_to_nearest :
    truncToInt (f32mulInt (f32round (7 / 10)) 10) = 7 ∧
    f32round (7 / 10) * 10 < 7 := by
  decide!

/-! ## Properties of the decoder -/

namespace VProcessor

theorem maxLocScan_isFirstMax (vs : List ℚ) :
    ∀ (pre : List ℚ) (best : ℚ) (bi : Nat), IsFirstMax pre best bi →
      IsFirstMax (pre ++ vs) (maxLocScan best bi pre.length vs).1
        (maxLocScan best bi pre.length vs).2 := by
  induction vs with
  | nil => intro pre best bi h; simpa [maxLocScan] using h
  | cons v vs ih =>
    intro pre best bi h
    obtain ⟨hget, hub, hfirst⟩ := h
    have hbi : bi < pre.length := by
      by_contra hc
      rw [List.getElem?_eq_none (by omega)] at hget
      cases hget
    have hstep : pre ++ v :: vs = (pre ++ [v]) ++ vs := by simp
    have hlen : (pre ++ [v]).length = pre.length + 1 := by simp
    unfold maxLocScan
    split
    · rename_i hlt
      rw [hstep, ← hlen]
      apply ih
      refine ⟨?_, ?_, ?_⟩
      · simp
      · intro x hx
        rcases List.mem_append.mp hx with hx | hx
        · exact le_of_lt (lt_of_le_of_lt (hub x hx) hlt)
        · simp at hx; exact le_of_eq hx
      · intro j hj x hx
        rw [List.getElem?_append_left hj] at hx
        exact lt_of_le_of_lt (hub x (List.getElem?_mem hx)) hlt
    · rename_i hnlt
      rw [hstep, ← hlen]
      apply ih
      refine ⟨?_, ?_, ?_⟩
      · rw [List.getElem?_append_left hbi]; exact hget
      · intro x hx
        rcases List.mem_append.mp hx with hx | hx
        · exact hub x hx
        · simp at hx; rw [hx]; exact not_lt.mp hnlt
      · intro j hj x hx
        rw [List.getElem?_append_left (by omega)] at hx
        exact hfirst j hj x hx

theorem maxLoc_isFirstMax (s : ℚ) (ss : List ℚ) :
    IsFirstMax (s :: ss) (maxLoc s ss).1 (maxLoc s ss).2 := by
  have h := maxLocScan_isFirstMax ss [s] s 0 ⟨by simp, by simp, by intro j hj; omega⟩
  simpa [maxLoc] using h

theorem regionRow_spec (frame : Frame) (acc : Detections) (row : List ℚ)
    (h : 6 ≤ row.length) :
    ∃ acc1, regionRow frame acc row = some acc1 ∧
      acc1.confidences
        = acc.confidences ++ [regionConfidence row].filter (fun c => decide (m_confThreshold < c)) ∧
      (acc.classIds.length = acc.confidences.length → acc.boxes.length = acc.confidences.length →
        acc1.classIds.length = acc1.confidences.length ∧
        acc1.boxes.length = acc1.confidences.length) := by
  match row, h with
  | d0 :: d1 :: d2 :: d3 :: o :: s :: ss, _ =>
    by_cases hc : m_confThreshold < (maxLoc s ss).1
    · simp [regionRow, regionConfidence, hc, Detections.push]
      intro h1 h2; omega
    · simp [regionRow, regionConfidence, hc]
      exact fun h1 h2 => ⟨h1, h2⟩

theorem regionRows_spec (frame : Frame) (rows : Mat) :
    ∀ acc : Detections, (∀ row ∈ rows, 6 ≤ row.length) →
    ∃ acc1, regionRows frame acc rows = some acc1 ∧
      acc1.confidences
        = acc.confidences ++ (rows.map regionConfidence).filter (fun c => decide (m_confThreshold < c)) ∧
      (acc.classIds.length = acc.confidences.length → acc.boxes.length = acc.confidences.length →
        acc1.classIds.length = acc1.confidences.length ∧
        acc1.boxes.length = acc1.confidences.length) := by
  induction rows with
  | nil => intro acc _; exact ⟨acc, rfl, by simp, fun h1 h2 => ⟨h1, h2⟩⟩
  | cons row rest ih =>
    intro acc hwf
    obtain ⟨a1, hrow, hconf1, hal1⟩ := regionRow_spec frame acc row (hwf row (by simp))
    obtain ⟨a2, hrest, hconf2, hal2⟩ := ih a1 (fun r hr => hwf r (by simp [hr]))
    refine ⟨a2, ?_, ?_, ?_⟩
    · simp [regionRows, hrow, hrest]
    · rw [hconf2, hconf1, List.append_assoc, ← List.filter_append]
      rfl
    · intro h1 h2
      obtain ⟨h3, h4⟩ := hal1 h1 h2
      exact hal2 h3 h4

theorem regionOuts_spec (frame : Frame) (outs : List Mat) :
    ∀ acc : Detections, (∀ out ∈ outs, ∀ row ∈ out, 6 ≤ row.length) →
    ∃ acc1, regionOuts frame acc outs = some acc1 ∧
      acc1.confidences
        = acc.confidences ++
            (outs.flatten.map regionConfidence).filter (fun c => decide (m_confThreshold < c)) ∧
      (acc.classIds.length = acc.confidences.length → acc.boxes.length = acc.confidences.length →
        acc1.classIds.length = acc1.confidences.length ∧
        acc1.boxes.length = acc1.confidences.length) := by
  induction outs with
  | nil => intro acc _; exact ⟨acc, rfl, by simp, fun h1 h2 => ⟨h1, h2⟩⟩
  | cons out rest ih =>
    intro acc hwf
    obtain ⟨a1, hout, hconf1, hal1⟩ := regionRows_spec frame out acc (hwf out (by simp))
    obtain ⟨a2, hrest, hconf2, hal2⟩ := ih a1 (fun r hr => hwf r (by simp [hr]))
    refine ⟨a2, ?_, ?_, ?_⟩
    · simp [regionOuts, hout, hrest]
    · rw [hconf2, hconf1, List.flatten_cons, List.map_append, List.filter_append,
        List.append_assoc]
    · intro h1 h2
      obtain ⟨h3, h4⟩ := hal1 h1 h2
      exact hal2 h3 h4

theorem detectionRow_spec (frame : Frame) (acc : Detections) (row : List ℚ)
    (h : 7 ≤ row.length) :
    ∃ acc1, detectionRow frame acc row = some acc1 ∧
      acc1.confidences
        = acc.confidences ++ [detectionConfidence row].filter (fun c => decide (m_confThreshold < c)) ∧
      (acc.classIds.length = acc.confidences.length → acc.boxes.length = acc.confidences.length →
        acc1.classIds.length = acc1.confidences.length ∧
        acc1.boxes.length = acc1.confidences.length) := by
  match row, h with
  | c0 :: c1 :: c2 :: c3 :: c4 :: c5 :: c6 :: rest, _ =>
    by_cases hc : m_confThreshold < c2
    · simp [detectionRow, detectionConfidence, hc, Detections.push]
      intro h1 h2; omega
    · simp [detectionRow, detectionConfidence, hc]
      exact fun h1 h2 => ⟨h1, h2⟩

theorem detectionRows_spec (frame : Frame) (rows : Mat) :
    ∀ acc : Detections, (∀ row ∈ rows, 7 ≤ row.length) →
    ∃ acc1, detectionRows frame acc rows = some acc1 ∧
      acc1.confidences
        = acc.confidences ++
            (rows.map detectionConfidence).filter (fun c => decide (m_confThreshold < c)) ∧
      (acc.classIds.length = acc.confidences.length → acc.boxes.length = acc.confidences.length →
        acc1.classIds.length = acc1.confidences.length ∧
        acc1.boxes.length = acc1.confidences.length) := by
  induction rows with
  | nil => intro acc _; exact ⟨acc, rfl, by simp, fun h1 h2 => ⟨h1, h2⟩⟩
  | cons row rest ih =>
    intro acc hwf
    obtain ⟨a1, hrow, hconf1, hal1⟩ := detectionRow_spec frame acc row (hwf row (by simp))
    obtain ⟨a2, hrest, hconf2, hal2⟩ := ih a1 (fun r hr => hwf r (by simp [hr]))
    refine ⟨a2, ?_, ?_, ?_⟩
    · simp [detectionRows, hrow, hrest]
    · rw [hconf2, hconf1, List.append_assoc, ← List.filter_append]
      rfl
    · intro h1 h2
      obtain ⟨h3, h4⟩ := hal1 h1 h2
      exact hal2 h3 h4

theorem regionConfidence_greatest (row : List ℚ) (h : 6 ≤ row.length) :
    regionConfidence row ∈ row.drop 5 ∧ ∀ v ∈ row.drop 5, v ≤ regionConfidence row := by
  match row, h with
  | d0 :: d1 :: d2 :: d3 :: o :: s :: ss, _ =>
    obtain ⟨hget, hub, _⟩ := maxLoc_isFirstMax s ss
    exact ⟨List.getElem?_mem hget, hub⟩

/-- C1: in both schemas a tensor row yields a candidate exactly when its
confidence exceeds 0.5.  For well-formed tensors the decoder returns, and the
emitted confidences are, in row order, the confidences of the rows that exceed
one half (the greatest class score of a Region row, column 2 of a
DetectionOutput row); the three vectors grow together, and every emitted
confidence exceeds one half. -/
theorem postprocess_candidate_iff_above_threshold (frame : Frame)
    (outs : List Mat) (detection : Mat) (others : List Mat)
    (hRegion : ∀ out ∈ outs, ∀ row ∈ out, 6 ≤ row.length)
    (hTable : ∀ row ∈ detection, 7 ≤ row.length) :
    (∃ d, decode "Region" frame outs = some d ∧
        d.confidences
          = (outs.flatten.map regionConfidence).filter (fun c => decide (1 / 2 < c)) ∧
        d.classIds.length = d.confidences.length ∧
        d.boxes.length = d.confidences.length ∧
        ∀ c ∈ d.confidences, 1 / 2 < c) ∧
    (∃ d, decode "DetectionOutput" frame (detection :: others) = some d ∧
        d.confidences
          = (detection.map detectionConfidence).filter (fun c => decide (1 / 2 < c)) ∧
        d.classIds.length = d.confidences.length ∧
        d.boxes.length = d.confidences.length ∧
        ∀ c ∈ d.confidences, 1 / 2 < c) ∧
    (∀ out ∈ outs, ∀ row ∈ out,
        regionConfidence row ∈ row.drop 5 ∧ ∀ v ∈ row.drop 5, v ≤ regionConfidence row) ∧
    (∀ row ∈ detection, row[2]? = some (detectionConfidence row)) := by
  refine ⟨?_, ?_, ?_, ?_⟩
  · obtain ⟨d, hd, hconf, hal⟩ := regionOuts_spec frame outs Detections.empty hRegion
    have hal1 := hal rfl rfl
    have hconf1 : d.confidences
        = (outs.flatten.map regionConfidence).filter (fun c => decide (1 / 2 < c)) := hconf
    refine ⟨d, by simp [decode, hd], hconf1, hal1.1, hal1.2, ?_⟩
    intro c hc
    rw [hconf1] at hc
    exact of_decide_eq_true (List.mem_filter.mp hc).2
  · obtain ⟨d, hd, hconf, hal⟩ := detectionRows_spec frame detection Detections.empty hTable
    have hal1 := hal rfl rfl
    have hconf1 : d.confidences
        = (detection.map detectionConfidence).filter (fun c => decide (1 / 2 < c)) := hconf
    refine ⟨d, by simp [decode, hd], hconf1, hal1.1, hal1.2, ?_⟩
    intro c hc
    rw [hconf1] at hc
    exact of_decide_eq_true (List.mem_filter.mp hc).2
  · intro out hout row hrow
    exact regionConfidence_greatest row (hRegion out hout row hrow)
  · intro row hrow
    match row, hTable row hrow with
    | c0 :: c1 :: c2 :: rest, _ => simp [detectionConfidence]

/-- C1 witness: a tensor with one row above and one row below the threshold,
in both schemas. -/
theorem postprocess_candidate_iff_above_threshold_witness :
    (∀ out ∈ [[Sample.regionRowHigh, Sample.regionRowLow]], ∀ row ∈ out, 6 ≤ row.length) ∧
    (∀ row ∈ [Sample.tableRowHigh, Sample.tableRowLow], 7 ≤ row.length) ∧
    ((∃ d, decode "Region" Sample.frame300 [[Sample.regionRowHigh, Sample.regionRowLow]] = some d ∧
        d.confidences
          = (([[Sample.regionRowHigh, Sample.regionRowLow]] : List Mat).flatten.map
              regionConfidence).filter (fun c => decide (1 / 2 < c)) ∧
        d.classIds.length = d.confidences.length ∧
        d.boxes.length = d.confidences.length ∧
        ∀ c ∈ d.confidences, 1 / 2 < c) ∧
    (∃ d, decode "DetectionOutput" Sample.frame300
          ([Sample.tableRowHigh, Sample.tableRowLow] :: []) = some d ∧
        d.confidences
          = (([Sample.tableRowHigh, Sample.tableRowLow] : Mat).map
              detectionConfidence).filter (fun c => decide (1 / 2 < c)) ∧
        d.classIds.length = d.confidences.length ∧
        d.boxes.length = d.confidences.length ∧
        ∀ c ∈ d.confidences, 1 / 2 < c) ∧
    (∀ out ∈ [[Sample.regionRowHigh, Sample.regionRowLow]], ∀ row ∈ out,
        regionConfidence row ∈ row.drop 5 ∧ ∀ v ∈ row.drop 5, v ≤ regionConfidence row) ∧
    (∀ row ∈ [Sample.tableRowHigh, Sample.tableRowLow],
        row[2]? = some (detectionConfidence row))) :=
  ⟨by decide, by decide,
    postprocess_candidate_iff_above_threshold Sample.frame300
      [[Sample.regionRowHigh, Sample.regionRowLow]] [Sample.tableRowHigh, Sample.tableRowLow] []
      (by decide) (by decide)⟩

end VProcessor

/-! ## Properties of suppression and drawing -/

/-- With fuel for every candidate, each candidate is retained or has IoU above
the threshold with a retained index. -/
theorem suppress_complete (box : Nat → Rect) (t : ℚ) :
    ∀ (fuel : Nat) (l : List Nat), l.length ≤ fuel → ∀ j ∈ l,
      j ∈ suppress box t fuel l ∨ ∃ i ∈ suppress box t fuel l, t < iou (box i) (box j) := by
  intro fuel
  induction fuel with
  | zero =>
    intro l hl j hj
    have : l = [] := List.length_eq_zero.mp (Nat.le_zero.mp hl)
    simp [this] at hj
  | succ n ih =>
    intro l hl j hj
    cases l with
    | nil => simp at hj
    | cons c rest =>
      simp only [suppress]
      rcases List.mem_cons.mp hj with hj | hj
      · left; simp [hj]
      · by_cases hc : iou (box c) (box j) ≤ t
        · have hlen : (rest.filter (fun j => decide (iou (box c) (box j) ≤ t))).length ≤ n :=
            le_trans (List.length_filter_le _ _) (by simpa using hl)
          have hmem : j ∈ rest.filter (fun j => decide (iou (box c) (box j) ≤ t)) :=
            List.mem_filter.mpr ⟨hj, decide_eq_true hc⟩
          rcases ih _ hlen j hmem with h | ⟨i, hi, hlt⟩
          · left; exact List.mem_cons_of_mem _ h
          · right; exact ⟨i, List.mem_cons_of_mem _ hi, hlt⟩
        · right; exact ⟨c, by simp, not_le.mp hc⟩

/-- Every candidate above the confidence threshold is retained or overlaps a
retained box by more than the IoU threshold. -/
theorem NMSBoxes_complete (boxes : List Rect) (scores : List ℚ) (s t : ℚ) (j : Nat)
    (hb : j < boxes.length) (hs : j < scores.length) (hj : s < scores.getD j 0) :
    j ∈ NMSBoxes boxes scores s t ∨
      ∃ i ∈ NMSBoxes boxes scores s t,
        t < iou (boxes.getD i ⟨0, 0, 0, 0⟩) (boxes.getD j ⟨0, 0, 0, 0⟩) := by
  apply suppress_complete (fun i => boxes.getD i ⟨0, 0, 0, 0⟩) t _ _ (le_refl _)
  apply (List.perm_insertionSort _ _).mem_iff.mpr
  exact List.mem_filter.mpr ⟨List.mem_range.mpr (lt_min hb hs), decide_eq_true hj⟩

namespace VProcessor

end VProcessor

/-! ## Properties of `CourtDetect` -/

namespace CourtDetect

theorem validate_spec (self : CourtDetect) :
    ((4 ≤ self.framePoints.length ∧ 4 ≤ self.courtPoints.length ∧
        self.framePoints.length = self.courtPoints.length) →
      validate self = .returned { self with calibrated := true }) ∧
    (¬ (4 ≤ self.framePoints.length ∧ 4 ≤ self.courtPoints.length ∧
        self.framePoints.length = self.courtPoints.length) →
      ∃ message, validate self = .exited (-1) message) := by
  constructor
  · rintro ⟨h1, h2, h3⟩
    have hn : ¬ (self.framePoints.length < minImagePoints ∨
        self.courtPoints.length < minImagePoints) := by
      simp only [minImagePoints]; omega
    unfold validate
    rw [if_neg hn, if_neg (not_not.mpr h3)]
  · intro h
    by_cases h1 : self.framePoints.length < minImagePoints ∨
        self.courtPoints.length < minImagePoints
    · refine ⟨"ERROR must select at least 4 points for each.\n", ?_⟩
      unfold validate
      rw [if_pos h1]
    · have h2 : self.framePoints.length ≠ self.courtPoints.length := by
        simp only [minImagePoints] at h1
        omega
      refine ⟨"ERROR frame and court selected points must match.\n", ?_⟩
      unfold validate
      rw [if_neg h1, if_pos h2]

/-- C4: `calibratePoints` returns with `calibrated = true` exactly when, at the
end of point collection, `framePoints` and `courtPoints` both hold at least 4
points and hold the same number of points; it then returns the collected
object with the flag set.  In every other case it prints an error and exits
with status -1, so no object with `calibrated = true` results. -/
theorem calibratePoints_calibrated_iff (self : CourtDetect) (events : List UiEvent) :
    ((4 ≤ (collect self events).framePoints.length ∧
        4 ≤ (collect self events).courtPoints.length ∧
        (collect self events).framePoints.length = (collect self events).courtPoints.length) →
      calibratePoints self events
        = .returned { collect self events with calibrated := true }) ∧
    (¬ (4 ≤ (collect self events).framePoints.length ∧
        4 ≤ (collect self events).courtPoints.length ∧
        (collect self events).framePoints.length = (collect self events).courtPoints.length) →
      ∃ message, calibratePoints self events = .exited (-1) message) ∧
    ((∃ r, calibratePoints self events = .returned r ∧ r.calibrated = true) ↔
      (4 ≤ (collect self events).framePoints.length ∧
        4 ≤ (collect self events).courtPoints.length ∧
        (collect self events).framePoints.length
          = (collect self events).courtPoints.length)) := by
  obtain ⟨hyes, hno⟩ := validate_spec (collect self events)
  refine ⟨hyes, hno, ?_⟩
  constructor
  · rintro ⟨r, hr, _⟩
    by_contra hc
    obtain ⟨m, hm⟩ := hno hc
    rw [calibratePoints] at hr
    rw [hr] at hm
    cases hm
  · intro h
    exact ⟨_, hyes h, rfl⟩

/-- C4 witness: four points on each plane calibrate; three court points with
five frame points, and six court points with five frame points, exit. -/
theorem calibratePoints_calibrated_iff_witness :
    calibratePoints create Sample.clicks44 = .returned Sample.calibrated44 ∧
    (∃ message, calibratePoints create Sample.clicks35 = .exited (-1) message) ∧
    (∃ message, calibratePoints create Sample.clicks65 = .exited (-1) message) :=
  ⟨((calibratePoints_calibrated_iff create Sample.clicks44).1 (by decide!)).trans (by decide!),
    (calibratePoints_calibrated_iff create Sample.clicks35).2.1 (by decide!),
    (calibratePoints_calibrated_iff create Sample.clicks65).2.1 (by decide!)⟩

end CourtDetect

namespace CourtDetect

theorem onMouseClickCourt_step (s : CourtDetect) (e : MouseEvent) :
    (onMouseClickCourt s e).1.courtPoints
      = (if e.event = EVENT_LBUTTONDOWN ∧ s.courtPoints.length < 15
          then s.courtPoints ++ [clickPoint e] else s.courtPoints) ∧
    (onMouseClickCourt s e).1.framePoints = s.framePoints ∧
    (onMouseClickCourt s e).1.calibrated = s.calibrated := by
  unfold onMouseClickCourt
  by_cases h : s.courtPoints.length < maxImagePoints ∧ e.event = EVENT_FLAG_LBUTTON
  · have h2 : e.event = EVENT_LBUTTONDOWN ∧ s.courtPoints.length < 15 := ⟨h.2, h.1⟩
    rw [if_pos h, if_pos h2]
    exact ⟨rfl, rfl, rfl⟩
  · have h2 : ¬ (e.event = EVENT_LBUTTONDOWN ∧ s.courtPoints.length < 15) :=
      fun hc => h ⟨hc.2, hc.1⟩
    rw [if_neg h, if_neg h2]
    split <;> exact ⟨rfl, rfl, rfl⟩

theorem onMouseClickFrame_step (s : CourtDetect) (e : MouseEvent) :
    (onMouseClickFrame s e).1.framePoints
      = (if e.event = EVENT_LBUTTONDOWN ∧ s.framePoints.length < 15
          then s.framePoints ++ [clickPoint e] else s.framePoints) ∧
    (onMouseClickFrame s e).1.courtPoints = s.courtPoints ∧
    (onMouseClickFrame s e).1.calibrated = s.calibrated := by
  unfold onMouseClickFrame
  by_cases h : s.framePoints.length < maxImagePoints ∧ e.event = EVENT_FLAG_LBUTTON
  · have h2 : e.event = EVENT_LBUTTONDOWN ∧ s.framePoints.length < 15 := ⟨h.2, h.1⟩
    rw [if_pos h, if_pos h2]
    exact ⟨rfl, rfl, rfl⟩
  · have h2 : ¬ (e.event = EVENT_LBUTTONDOWN ∧ s.framePoints.length < 15) :=
      fun hc => h ⟨hc.2, hc.1⟩
    rw [if_neg h, if_neg h2]
    split <;> exact ⟨rfl, rfl, rfl⟩

theorem capped_append_step (l : List Point2f) (p : Point2f) (rest : List Point2f)
    (hl : l.length ≤ 15) :
    ((if l.length < 15 then l ++ [p] else l) ++ rest).take 15 = (l ++ p :: rest).take 15 := by
  by_cases h : l.length < 15
  · rw [if_pos h, List.append_assoc]; rfl
  · have h15 : l.length = 15 := by omega
    rw [if_neg h, List.take_append_of_le_length (by omega),
      List.take_append_of_le_length (by omega)]

theorem courtClicks_points (events : List MouseEvent) :
    ∀ s : CourtDetect, s.courtPoints.length ≤ 15 →
      (courtClicks s events).courtPoints = (s.courtPoints ++ pressedPoints events).take 15 ∧
      (courtClicks s events).framePoints = s.framePoints ∧
      (courtClicks s events).calibrated = s.calibrated := by
  induction events with
  | nil =>
    intro s hs
    exact ⟨by simp [courtClicks, pressedPoints, List.take_of_length_le hs], rfl, rfl⟩
  | cons e es ih =>
    intro s hs
    obtain ⟨h1, h2, h3⟩ := onMouseClickCourt_step s e
    have hlen : (onMouseClickCourt s e).1.courtPoints.length ≤ 15 := by
      rw [h1]; split
      · rename_i hc; simp; omega
      · exact hs
    obtain ⟨i1, i2, i3⟩ := ih (onMouseClickCourt s e).1 hlen
    have hfold : courtClicks s (e :: es) = courtClicks (onMouseClickCourt s e).1 es := rfl
    rw [hfold, i1, i2, i3, h2, h3]
    refine ⟨?_, rfl, rfl⟩
    rw [h1]
    by_cases hev : e.event = EVENT_LBUTTONDOWN
    · have hp : pressedPoints (e :: es) = clickPoint e :: pressedPoints es := by
        simp [pressedPoints, hev]
      rw [hp, ← capped_append_step _ _ _ hs]
      by_cases hl : s.courtPoints.length < 15
      · rw [if_pos ⟨hev, hl⟩, if_pos hl]
      · rw [if_neg (fun hc => hl hc.2), if_neg hl]
    · have hp : pressedPoints (e :: es) = pressedPoints es := by
        simp [pressedPoints, hev]
      rw [hp, if_neg (fun hc => hev hc.1)]

theorem frameClicks_points (events : List MouseEvent) :
    ∀ s : CourtDetect, s.framePoints.length ≤ 15 →
      (frameClicks s events).framePoints = (s.framePoints ++ pressedPoints events).take 15 ∧
      (frameClicks s events).courtPoints = s.courtPoints ∧
      (frameClicks s events).calibrated = s.calibrated := by
  induction events with
  | nil =>
    intro s hs
    exact ⟨by simp [frameClicks, pressedPoints, List.take_of_length_le hs], rfl, rfl⟩
  | cons e es ih =>
    intro s hs
    obtain ⟨h1, h2, h3⟩ := onMouseClickFrame_step s e
    have hlen : (onMouseClickFrame s e).1.framePoints.length ≤ 15 := by
      rw [h1]; split
      · rename_i hc; simp; omega
      · exact hs
    obtain ⟨i1, i2, i3⟩ := ih (onMouseClickFrame s e).1 hlen
    have hfold : frameClicks s (e :: es) = frameClicks (onMouseClickFrame s e).1 es := rfl
    rw [hfold, i1, i2, i3, h2, h3]
    refine ⟨?_, rfl, rfl⟩
    rw [h1]
    by_cases hev : e.event = EVENT_LBUTTONDOWN
    · have hp : pressedPoints (e :: es) = clickPoint e :: pressedPoints es := by
        simp [pressedPoints, hev]
      rw [hp, ← capped_append_step _ _ _ hs]
      by_cases hl : s.framePoints.length < 15
      · rw [if_pos ⟨hev, hl⟩, if_pos hl]
      · rw [if_neg (fun hc => hl hc.2), if_neg hl]
    · have hp : pressedPoints (e :: es) = pressedPoints es := by
        simp [pressedPoints, hev]
      rw [hp, if_neg (fun hc => hev hc.1)]

/-- C7: mouse events delivered to `onMouseClickCourt`, and likewise to
`onMouseClickFrame`, starting from an empty list of that plane.  After any
sequence of events the list holds the points of the left-button presses, in
the order of the presses, cut off after the 15th; it never holds more than 15
points; the next event appends its point at the end exactly when it is a
left-button press and the list holds fewer than 15 points, and otherwise
leaves the list as it is.  The other plane's list is never touched.  The
point of a press is `(x, y)` itself for coordinates of magnitude below `2^24`,
where the conversion to `float` is exact. -/
theorem click_capture (fp cp : List Point2f) (c : Bool) (events : List MouseEvent) :
    (courtClicks ⟨fp, [], c⟩ events).courtPoints = (pressedPoints events).take 15 ∧
    (courtClicks ⟨fp, [], c⟩ events).courtPoints.length ≤ 15 ∧
    (courtClicks ⟨fp, [], c⟩ events).framePoints = fp ∧
    (∀ e : MouseEvent,
      (onMouseClickCourt (courtClicks ⟨fp, [], c⟩ events) e).1.courtPoints
        = if e.event = EVENT_LBUTTONDOWN ∧
              (courtClicks ⟨fp, [], c⟩ events).courtPoints.length < 15
          then (courtClicks ⟨fp, [], c⟩ events).courtPoints ++ [clickPoint e]
          else (courtClicks ⟨fp, [], c⟩ events).courtPoints) ∧
    (frameClicks ⟨[], cp, c⟩ events).framePoints = (pressedPoints events).take 15 ∧
    (frameClicks ⟨[], cp, c⟩ events).framePoints.length ≤ 15 ∧
    (frameClicks ⟨[], cp, c⟩ events).courtPoints = cp ∧
    (∀ e : MouseEvent,
      (onMouseClickFrame (frameClicks ⟨[], cp, c⟩ events) e).1.framePoints
        = if e.event = EVENT_LBUTTONDOWN ∧
              (frameClicks ⟨[], cp, c⟩ events).framePoints.length < 15
          then (frameClicks ⟨[], cp, c⟩ events).framePoints ++ [clickPoint e]
          else (frameClicks ⟨[], cp, c⟩ events).framePoints) ∧
    (∀ e : MouseEvent, e.x.natAbs < 2 ^ 24 → e.y.natAbs < 2 ^ 24 →
      clickPoint e = ⟨(e.x : ℚ), (e.y : ℚ)⟩) := by
  obtain ⟨c1, c2, _⟩ := courtClicks_points events ⟨fp, [], c⟩ (by simp)
  obtain ⟨f1, f2, _⟩ := frameClicks_points events ⟨[], cp, c⟩ (by simp)
  have c1a : (courtClicks ⟨fp, [], c⟩ events).courtPoints = (pressedPoints events).take 15 := c1
  have f1a : (frameClicks ⟨[], cp, c⟩ events).framePoints = (pressedPoints events).take 15 := f1
  refine ⟨c1a, ?_, c2, fun e => (onMouseClickCourt_step _ e).1, f1a, ?_, f2,
    fun e => (onMouseClickFrame_step _ e).1, ?_⟩
  · rw [c1a]; exact List.length_take_le _ _
  · rw [f1a]; exact List.length_take_le _ _
  · intro e hx hy
    unfold clickPoint
    rw [f32OfInt_exact e.x hx, f32OfInt_exact e.y hy]

/-- C7 witness: of sixteen left-button presses, mixed with a move and a
right-button press, the first fifteen are stored, in order. -/
theorem click_capture_witness :
    (courtClicks ⟨[], [], false⟩ Sample.sixteenPresses).courtPoints
      = (List.range 15).map (fun k : Nat => (⟨(k : ℚ), 2 * (k : ℚ)⟩ : Point2f)) ∧
    (frameClicks ⟨[], [], false⟩ Sample.sixteenPresses).framePoints
      = (List.range 15).map (fun k : Nat => (⟨(k : ℚ), 2 * (k : ℚ)⟩ : Point2f)) :=
  ⟨(click_capture [] [] false Sample.sixteenPresses).1.trans (by decide!),
    (click_capture [] [] false Sample.sixteenPresses).2.2.2.2.1.trans (by decide!)⟩

/-- C9: the handlers after calibration.  With `calibrated = true`, an event
leaves the handler's own list unchanged exactly when it is not a left-button
press on a list of fewer than 15 points; such a press is still appended, for
the handlers do not read `calibrated`.  The other plane's list and the flag
are never changed, and once both windows are destroyed no event reaches a
handler. -/
theorem handlers_after_calibration (self : CourtDetect) (e : MouseEvent)
    (hcal : self.calibrated = true) :
    ((onMouseClickFrame self e).1.framePoints = self.framePoints ↔
      ¬ (e.event = EVENT_LBUTTONDOWN ∧ self.framePoints.length < 15)) ∧
    ((onMouseClickCourt self e).1.courtPoints = self.courtPoints ↔
      ¬ (e.event = EVENT_LBUTTONDOWN ∧ self.courtPoints.length < 15)) ∧
    (e.event = EVENT_LBUTTONDOWN ∧ self.framePoints.length < 15 →
      (onMouseClickFrame self e).1.framePoints = self.framePoints ++ [clickPoint e]) ∧
    (e.event = EVENT_LBUTTONDOWN ∧ self.courtPoints.length < 15 →
      (onMouseClickCourt self e).1.courtPoints = self.courtPoints ++ [clickPoint e]) ∧
    (onMouseClickFrame self e).1.courtPoints = self.courtPoints ∧
    (onMouseClickCourt self e).1.framePoints = self.framePoints ∧
    (onMouseClickFrame self e).1.calibrated = true ∧
    (onMouseClickCourt self e).1.calibrated = true ∧
    (∀ w : Window, dispatch ⟨self, false, false⟩ ⟨w, e⟩ = ⟨self, false, false⟩) := by
  obtain ⟨f1, f2, f3⟩ := onMouseClickFrame_step self e
  obtain ⟨c1, c2, c3⟩ := onMouseClickCourt_step self e
  refine ⟨?_, ?_, ?_, ?_, f2, c2, by rw [f3, hcal], by rw [c3, hcal], ?_⟩
  · rw [f1]
    by_cases h : e.event = EVENT_LBUTTONDOWN ∧ self.framePoints.length < 15
    · rw [if_pos h]; simp [h]
    · rw [if_neg h]; simp [h]
  · rw [c1]
    by_cases h : e.event = EVENT_LBUTTONDOWN ∧ self.courtPoints.length < 15
    · rw [if_pos h]; simp [h]
    · rw [if_neg h]; simp [h]
  · intro h; rw [f1, if_pos h]
  · intro h; rw [c1, if_pos h]
  · intro w; cases w <;> rfl

/-- C9 witness: a right-button press and a left-button press delivered to the
calibrated object of `Sample.clicks44`. -/
theorem handlers_after_calibration_witness :
    Sample.calibrated44.calibrated = true ∧
    (onMouseClickFrame Sample.calibrated44 ⟨2, 50, 25, 2⟩).1.framePoints
      = Sample.calibrated44.framePoints ∧
    (onMouseClickFrame Sample.calibrated44 ⟨1, 50, 25, 1⟩).1.framePoints
      = Sample.calibrated44.framePoints ++ [⟨50, 25⟩] :=
  ⟨rfl,
    (handlers_after_calibration Sample.calibrated44 ⟨2, 50, 25, 2⟩ rfl).1.mpr (by decide!),
    ((handlers_after_calibration Sample.calibrated44 ⟨1, 50, 25, 1⟩ rfl).2.2.1
      (by decide!)).trans (by decide!)⟩

/-- C9 counterexample: the object that `calibratePoints` returns for four court
and four frame points has `calibrated = true`, and a left-button press
delivered to `onMouseClickFrame` afterwards adds a fifth frame point.  A second
call of `calibratePoints` on the calibrated object delivers such presses: it
returns with five points in each list. -/
theorem click_after_calibration_appends :
    calibratePoints create Sample.clicks44 = .returned Sample.calibrated44 ∧
    Sample.calibrated44.calibrated = true ∧
    (onMouseClickFrame Sample.calibrated44 ⟨1, 50, 25, 1⟩).1.framePoints
      = [⟨0, 0⟩, ⟨100, 0⟩, ⟨100, 50⟩, ⟨0, 50⟩, ⟨50, 25⟩] ∧
    (onMouseClickFrame Sample.calibrated44 ⟨1, 50, 25, 1⟩).1.framePoints
      ≠ Sample.calibrated44.framePoints ∧
    calibratePoints Sample.calibrated44
        [Sample.press .frame 50 25, Sample.press .court 50 25]
      = .returned ⟨Sample.cornerPoints ++ [⟨50, 25⟩], Sample.cornerPoints ++ [⟨50, 25⟩], true⟩ := by
  decide!

/-- C6: `projectPosition` does not read `calibrated`.  For every state and every
point its first action is the call of `findHomography` on the stored
`framePoints` and `courtPoints`, whatever they hold, and what it does is the
same whether the flag is set or not; it ends without a court point only when
an OpenCV call throws.  The flag is only available to callers, through
`isCalibrated`. -/
theorem projectPosition_ignores_calibrated {H : Type} (cv : Cv H) (self : CourtDetect)
    (position : Point2f) (flag : Bool) :
    projectPosition cv { self with calibrated := flag } position
      = projectPosition cv self position ∧
    (projectPosition cv self position).calls.head?
      = some (.findHomography self.framePoints self.courtPoints) ∧
    ((projectPosition cv self position).courtPoint = none ↔
      (cv.findHomography self.framePoints self.courtPoints = none ∨
       ∃ h, cv.findHomography self.framePoints self.courtPoints = some h ∧
         cv.perspectiveTransform h position = none)) ∧
    isCalibrated self = self.calibrated := by
  refine ⟨rfl, ?_, ?_, rfl⟩
  · unfold projectPosition
    split
    · rfl
    · split <;> rfl
  · unfold projectPosition
    split
    · rename_i h; simp [h]
    · rename_i hm hh
      split
      · rename_i hp; simp [hh, hp]
      · rename_i p hp; simp [hh, hp]

/-- C6 counterexample: on a new, uncalibrated object `projectPosition` goes
straight to `findHomography` on the two empty point lists; on an uncalibrated
object that holds four matching points it completes and draws the projected
point. -/
theorem projectPosition_uncalibrated_proceeds :
    create.calibrated = false ∧
    (projectPosition Sample.identityCv create ⟨50, 25⟩).calls = [.findHomography [] []] ∧
    Sample.uncalibrated44.calibrated = false ∧
    projectPosition Sample.identityCv Sample.uncalibrated44 ⟨50, 25⟩
      = ⟨[.findHomography Sample.cornerPoints Sample.cornerPoints,
          .perspectiveTransform ⟨50, 25⟩, .circle ⟨50, 25⟩, .imshow, .waitKey],
         some ⟨50, 25⟩⟩ := by
  decide!

end CourtDetect

/-! ## Properties of `drawPred` and of the detect stage -/

namespace VProcessor

theorem vecAt_outside {α : Type} (v : List α) (i : Int)
    (h : i < 0 ∨ (v.length : Int) ≤ i) : vecAt v i = none := by
  unfold vecAt
  split
  · rfl
  · apply List.getElem?_eq_none
    omega

theorem loadClasses_spec (rng : Nat → Scalar) (lines : List String) :
    ∀ self : VProcessor,
      (loadClasses rng self lines)._classes = self._classes ++ lines ∧
      (loadClasses rng self lines)._colors.length = self._colors.length + lines.length := by
  induction lines with
  | nil => intro self; simp [loadClasses]
  | cons line rest ih =>
    intro self
    obtain ⟨h1, h2⟩ := ih ⟨self._classes ++ [line], self._colors ++ [rng self._colors.length]⟩
    simp only [loadClasses, h1, h2]
    constructor
    · simp
    · simp; omega

/-- The constructor stores the lines as class names and one colour per line. -/
theorem create_spec (rng : Nat → Scalar) (lines : List String) :
    (create rng lines)._classes = lines ∧ (create rng lines)._colors.length = lines.length := by
  obtain ⟨h1, h2⟩ := loadClasses_spec rng lines ⟨[], []⟩
  exact ⟨by simpa [create] using h1, by simpa [create] using h2⟩

/-- For a class id outside the class list, `drawPred` indexes `_colors` outside
its bounds at line 188, before the assertion of line 194 is reached. -/
theorem drawPred_outside (rng : Nat → Scalar) (lines : List String) (call : DrawCall)
    (h : call.classId < 0 ∨ (lines.length : Int) ≤ call.classId) :
    drawPred (create rng lines) call = .outOfRange := by
  obtain ⟨_, h2⟩ := create_spec rng lines
  unfold drawPred
  rw [vecAt_outside _ _ (by rw [h2]; exact h)]

/-- C5: class ids without an entry in the class list.  With an empty class list
and class id 0, with two classes and class id 5, and with two classes and class
id -1, `drawPred` indexes `_colors` outside its bounds and raises no error; so
does `postprocess` for a detection when the class list is empty. -/
theorem drawPred_unguarded_index :
    drawPred (create Sample.palette []) ⟨0, Sample.f09, 10, 10, 50, 50⟩ = .outOfRange ∧
    drawPred (create Sample.palette ["ball", "player"]) ⟨5, Sample.f09, 10, 10, 50, 50⟩
      = .outOfRange ∧
    drawPred (create Sample.palette ["ball", "player"]) ⟨-1, Sample.f09, 10, 10, 50, 50⟩
      = .outOfRange ∧
    drawPred (create Sample.palette ["ball", "player"]) ⟨1, Sample.f09, 10, 10, 50, 50⟩
      = .drawn ⟨1, 1, 1⟩ (some "player") ⟨1, Sample.f09, 10, 10, 50, 50⟩ ∧
    postprocess (create Sample.palette []) "DetectionOutput" Sample.frame300
      [[Sample.tableRowHigh]] = .outOfRange := by
  decide!

theorem operatorCall_leading {M : Type} (self : VProcessor) (net : Inference M)
    (quit : Nat → Bool) (g : M → M) (hquit : ∀ k, quit k = false)
    (tail : List (MyMat M)) (frames : List (MyMat M)) :
    ∀ k : Nat, (∀ f ∈ frames, f.width ≠ 0 ∧ processFrame self net f.mat = some (g f.mat)) →
      operatorCall self net quit k (frames ++ tail)
        = ⟨frames.map (fun f => { f with mat := g f.mat })
              ++ (operatorCall self net quit (k + frames.length) tail).pushed,
            (operatorCall self net quit (k + frames.length) tail).remaining,
            (operatorCall self net quit (k + frames.length) tail).ending⟩ := by
  induction frames with
  | nil => intro k _; simp
  | cons f rest ih =>
    intro k hf
    obtain ⟨hw, hp⟩ := hf f (by simp)
    have hrest := ih (k + 1) (fun g hg => hf g (List.mem_cons_of_mem _ hg))
    rw [List.cons_append, operatorCall, if_neg hw, hp]
    simp only [hquit k, Bool.false_eq_true, if_false, hrest, List.map_cons, List.cons_append,
      List.length_cons]
    have hk : k + 1 + rest.length = k + (rest.length + 1) := by omega
    rw [hk]

/-- C8: the detect stage on `n` ordinary frames followed by the end-of-stream
frame, the flag `quit` never set.  When the work of lines 73-94 returns for
each of the `n` frames, the stage pushes the `n` processed frames in the order
of their arrival, each with the width it arrived with, then the end-of-stream
frame, and leaves the loop; frames that follow the end-of-stream frame in the
input stay there and nothing more is pushed.  When instead the `n` frames are
followed by an ordinary frame whose work does not return, the stage ends there:
the `n` processed frames have been pushed, that frame and everything after it,
the end-of-stream frame included, are not. -/
theorem stage_forwards_frames_then_eos {M : Type} (self : VProcessor) (net : Inference M)
    (quit : Nat → Bool) (g : M → M)
    (frames : List (MyMat M)) (eos : MyMat M) (later : List (MyMat M))
    (hframes : ∀ f ∈ frames, f.width ≠ 0)
    (hwork : ∀ f ∈ frames, processFrame self net f.mat = some (g f.mat))
    (heos : eos.width = 0) (hquit : ∀ k, quit k = false) :
    operatorCall self net quit 0 (frames ++ eos :: later)
      = ⟨frames.map (fun f => { f with mat := g f.mat }) ++ [eos], later, .endOfStream⟩ ∧
    (operatorCall self net quit 0 (frames ++ eos :: later)).pushed.length = frames.length + 1 ∧
    (operatorCall self net quit 0 (frames ++ eos :: later)).pushed.map (fun f => f.width)
      = frames.map (fun f => f.width) ++ [0] ∧
    (∀ (bad : MyMat M) (rest : List (MyMat M)), bad.width ≠ 0 →
      processFrame self net bad.mat = none →
      operatorCall self net quit 0 (frames ++ bad :: rest)
        = ⟨frames.map (fun f => { f with mat := g f.mat }), rest, .crashed⟩) := by
  have hboth : ∀ f ∈ frames, f.width ≠ 0 ∧ processFrame self net f.mat = some (g f.mat) :=
    fun f hf => ⟨hframes f hf, hwork f hf⟩
  have h : operatorCall self net quit 0 (frames ++ eos :: later)
      = ⟨frames.map (fun f => { f with mat := g f.mat }) ++ [eos], later, .endOfStream⟩ := by
    rw [operatorCall_leading self net quit g hquit (eos :: later) frames 0 hboth]
    simp only [operatorCall, if_pos heos]
  refine ⟨h, ?_, ?_, ?_⟩
  · rw [h]; simp
  · rw [h]; simp [heos, Function.comp_def]
  · intro bad rest hbad hnone
    rw [operatorCall_leading self net quit g hquit (bad :: rest) frames 0 hboth]
    simp only [operatorCall, if_neg hbad, hnone, List.append_nil]

/-- C8 witness: the frames F1, F2 and the end-of-stream frame, with four class
names loaded. -/
theorem stage_forwards_frames_then_eos_witness :
    (∀ f ∈ ([⟨1, 640⟩, ⟨2, 640⟩] : List (MyMat Nat)), f.width ≠ 0) ∧
    (∀ f ∈ ([⟨1, 640⟩, ⟨2, 640⟩] : List (MyMat Nat)),
      processFrame Sample.fourClasses Sample.network f.mat = some (f.mat + 100)) ∧
    (⟨0, 0⟩ : MyMat Nat).width = 0 ∧
    (∀ k : Nat, (fun _ : Nat => false) k = false) ∧
    operatorCall Sample.fourClasses Sample.network (fun _ => false) 0
        ([⟨1, 640⟩, ⟨2, 640⟩] ++ ⟨0, 0⟩ :: [])
      = ⟨[⟨101, 640⟩, ⟨102, 640⟩, ⟨0, 0⟩], [], .endOfStream⟩ :=
  ⟨by decide, by decide!, rfl, fun _ => rfl,
    (stage_forwards_frames_then_eos Sample.fourClasses Sample.network (fun _ => false)
      (fun m => m + 100) [⟨1, 640⟩, ⟨2, 640⟩] ⟨0, 0⟩ [] (by decide) (by decide!) rfl
      (fun _ => rfl)).1.trans (by decide)⟩

/-- C8 counterexample: one ordinary frame followed by the end-of-stream frame,
the flag `quit` never set.  With a class file that could not be opened, and
with one that holds a single line, the detection of class 3 makes
`postprocess` index `_colors` outside its bounds; the stage ends without
pushing the frame or the end-of-stream frame, which stays in the input. -/
theorem stage_dies_before_eos :
    (⟨1, 640⟩ : MyMat Nat).width ≠ 0 ∧ (⟨0, 0⟩ : MyMat Nat).width = 0 ∧
    postprocess Sample.noClasses "DetectionOutput" Sample.frame300 [[Sample.tableRowHigh]]
      = .outOfRange ∧
    operatorCall Sample.noClasses Sample.network (fun _ => false) 0 [⟨1, 640⟩, ⟨0, 0⟩]
      = ⟨[], [⟨0, 0⟩], .crashed⟩ ∧
    operatorCall Sample.oneClass Sample.network (fun _ => false) 0 [⟨1, 640⟩, ⟨0, 0⟩]
      = ⟨[], [⟨0, 0⟩], .crashed⟩ ∧
    (operatorCall Sample.noClasses Sample.network (fun _ => false) 0
        [⟨1, 640⟩, ⟨0, 0⟩]).pushed
      ≠ [⟨101, 640⟩, ⟨0, 0⟩] := by
  decide!

end VProcessor
